import Mathlib

/-!
Verification of the quaternion rotation primitives of `rotations.c`.

The C doubles are modelled as real numbers; every function of the source
file is translated one-to-one below, keeping the C names.  Machine
floating point is idealized to exact real arithmetic, with C's
`1./x` modelled by Lean's total division (so `1./0` is `0`).
-/

open Real

noncomputable section

/-- Three-component real vector, modelling `struct reb_vec3d`. -/
@[ext]
structure reb_vec3d where
  x : ℝ
  y : ℝ
  z : ℝ

/-- Quaternion, modelling `struct reb_rotation` (fields ix, iy, iz, r). -/
@[ext]
structure reb_rotation where
  ix : ℝ
  iy : ℝ
  iz : ℝ
  r : ℝ

/-- `reb_vec3d_mul`: scalar multiple of a vector. -/
def reb_vec3d_mul (v : reb_vec3d) (s : ℝ) : reb_vec3d :=
  ⟨s * v.x, s * v.y, s * v.z⟩

/-- `reb_vec3d_add`: componentwise sum. -/
def reb_vec3d_add (v w : reb_vec3d) : reb_vec3d :=
  ⟨v.x + w.x, v.y + w.y, v.z + w.z⟩

/-- `reb_vec3d_cross`: right-handed cross product. -/
def reb_vec3d_cross (a b : reb_vec3d) : reb_vec3d :=
  ⟨a.y * b.z - a.z * b.y, a.z * b.x - a.x * b.z, a.x * b.y - a.y * b.x⟩

/-- `reb_vec3d_dot`. -/
def reb_vec3d_dot (a b : reb_vec3d) : ℝ :=
  a.x * b.x + a.y * b.y + a.z * b.z

/-- `reb_vec3d_length_squared`. -/
def reb_vec3d_length_squared (v : reb_vec3d) : ℝ :=
  reb_vec3d_dot v v

/-- `reb_vec3d_normalize`: `reb_vec3d_mul(v, 1./sqrt(length_squared(v)))`. -/
def reb_vec3d_normalize (v : reb_vec3d) : reb_vec3d :=
  reb_vec3d_mul v (1 / Real.sqrt (reb_vec3d_length_squared v))

/-- `reb_rotation_imag`: the imaginary part as a vector. -/
def reb_rotation_imag (q : reb_rotation) : reb_vec3d :=
  ⟨q.ix, q.iy, q.iz⟩

/-- `reb_rotation_mul`: Hamilton product (apply `q` first, then `p`). -/
def reb_rotation_mul (p q : reb_rotation) : reb_rotation :=
  ⟨p.r * q.ix + p.ix * q.r + p.iy * q.iz - p.iz * q.iy,
   p.r * q.iy - p.ix * q.iz + p.iy * q.r + p.iz * q.ix,
   p.r * q.iz + p.ix * q.iy - p.iy * q.ix + p.iz * q.r,
   p.r * q.r - p.ix * q.ix - p.iy * q.iy - p.iz * q.iz⟩

/-- `reb_rotation_length_squared`. -/
def reb_rotation_length_squared (q : reb_rotation) : ℝ :=
  q.r * q.r + q.ix * q.ix + q.iy * q.iy + q.iz * q.iz

/-- `reb_rotation_conjugate`: negate the imaginary part. -/
def reb_rotation_conjugate (q : reb_rotation) : reb_rotation :=
  ⟨-q.ix, -q.iy, -q.iz, q.r⟩

/-- `reb_rotation_inverse`: conjugate scaled by `1./length_squared`. -/
def reb_rotation_inverse (q : reb_rotation) : reb_rotation :=
  let c := reb_rotation_conjugate q
  let rl2 := 1 / reb_rotation_length_squared q
  ⟨c.ix * rl2, c.iy * rl2, c.iz * rl2, c.r * rl2⟩

/-- `reb_vec3d_irotate`, modelled functionally: the value written back into `*v`.
`t = 2*cross(imag, v)`; `result = v + q.r*t + cross(imag, t)`. -/
def reb_vec3d_irotate (v : reb_vec3d) (q : reb_rotation) : reb_vec3d :=
  let imag := reb_rotation_imag q
  let t := reb_vec3d_mul (reb_vec3d_cross imag v) 2
  reb_vec3d_add v (reb_vec3d_add (reb_vec3d_mul t q.r) (reb_vec3d_cross imag t))

/-- `reb_vec3d_rotate`: rotate a copy (same computation as `reb_vec3d_irotate`). -/
def reb_vec3d_rotate (v : reb_vec3d) (q : reb_rotation) : reb_vec3d :=
  reb_vec3d_irotate v q

/-- Modelled from the spec: the external Particle type (`struct reb_particle`,
declared outside src/) exposes six mutable real fields x, y, z, vx, vy, vz;
the field `rest` stands for all of its remaining state. -/
@[ext]
structure reb_particle where
  x : ℝ
  y : ℝ
  z : ℝ
  vx : ℝ
  vy : ℝ
  vz : ℝ
  rest : ℝ

/-- `reb_particle_irotate`: rotate position and velocity through the same
quaternion, writing back only those six fields. -/
def reb_particle_irotate (p : reb_particle) (q : reb_rotation) : reb_particle :=
  let pos := reb_vec3d_irotate ⟨p.x, p.y, p.z⟩ q
  let vel := reb_vec3d_irotate ⟨p.vx, p.vy, p.vz⟩ q
  { p with x := pos.x, y := pos.y, z := pos.z, vx := vel.x, vy := vel.y, vz := vel.z }

/-- Modelled from the spec: the external Collection (`struct reb_simulation`,
declared outside src/) exposes a count N and indexed access to particles; the
field `rest` stands for all of its remaining state.  The particle storage is
modelled as a list indexed from 0 (which may be longer than N). -/
structure reb_simulation where
  N : ℕ
  particles : List reb_particle
  rest : ℝ

/-- The `for (i = 0; i < N; i++)` loop of `reb_simulation_irotate`, carrying
the current index `i`: entries at indices `< N` are rotated in place. -/
def reb_simulation_irotate_loop (q : reb_rotation) (N : ℕ) :
    ℕ → List reb_particle → List reb_particle
  | _, [] => []
  | i, p :: ps =>
    (if i < N then reb_particle_irotate p q else p) ::
      reb_simulation_irotate_loop q N (i + 1) ps

/-- `reb_simulation_irotate`: rotate the first N particles of the simulation. -/
def reb_simulation_irotate (sim : reb_simulation) (q : reb_rotation) : reb_simulation :=
  { sim with particles := reb_simulation_irotate_loop q sim.N 0 sim.particles }

/-- `reb_rotation_identity`. -/
def reb_rotation_identity : reb_rotation :=
  ⟨0, 0, 0, 1⟩

/-- `reb_rotation_init_from_to_reduced`: the averaged-half-vector quaternion
`(cross(from, half), dot(from, half))` with `half = normalize(from + to)`. -/
def reb_rotation_init_from_to_reduced (fv tv : reb_vec3d) : reb_rotation :=
  let half := reb_vec3d_normalize ⟨fv.x + tv.x, fv.y + tv.y, fv.z + tv.z⟩
  let cross := reb_vec3d_cross fv half
  let dot := reb_vec3d_dot fv half
  ⟨cross.x, cross.y, cross.z, dot⟩

/-- The antipodal fallback branch of `reb_rotation_init_from_to` (lines
184-205 of rotations.c): take the world axis along which `fv` has the
smallest absolute component, cross it with `fv`, and return that axis as the
imaginary part with `r = 0`. -/
def reb_rotation_init_from_to_fallback (fv : reb_vec3d) : reb_rotation :=
  if |fv.x| ≤ |fv.y| ∧ |fv.x| ≤ |fv.z| then
    let axis := reb_vec3d_cross fv ⟨1, 0, 0⟩
    ⟨axis.x, axis.y, axis.z, 0⟩
  else if |fv.y| ≤ |fv.z| then
    let axis := reb_vec3d_cross fv ⟨0, 1, 0⟩
    ⟨axis.x, axis.y, axis.z, 0⟩
  else
    let axis := reb_vec3d_cross fv ⟨0, 0, 1⟩
    ⟨axis.x, axis.y, axis.z, 0⟩

/-- `reb_rotation_init_from_to`. -/
def reb_rotation_init_from_to (fv tv : reb_vec3d) : reb_rotation :=
  let f := reb_vec3d_normalize fv
  let t := reb_vec3d_normalize tv
  if 0 ≤ reb_vec3d_dot f t then
    reb_rotation_init_from_to_reduced f t
  else
    let half := reb_vec3d_normalize ⟨f.x + t.x, f.y + t.y, f.z + t.z⟩
    if reb_vec3d_length_squared half = 0 then
      reb_rotation_init_from_to_fallback f
    else
      reb_rotation_mul (reb_rotation_init_from_to_reduced f half)
        (reb_rotation_init_from_to_reduced half t)

/-- `reb_rotation_init_angle_axis`: `(sin(angle/2)*normalize(axis), cos(angle/2))`. -/
def reb_rotation_init_angle_axis (angle : ℝ) (axis0 : reb_vec3d) : reb_rotation :=
  let axis := reb_vec3d_normalize axis0
  let cos2 := Real.cos (angle / 2)
  let sin2 := Real.sin (angle / 2)
  let imag := reb_vec3d_mul axis sin2
  ⟨imag.x, imag.y, imag.z, cos2⟩

/-- `reb_rotation_init_to_new_axes`. -/
def reb_rotation_init_to_new_axes (newz newx : reb_vec3d) : reb_rotation :=
  let z : reb_vec3d := ⟨0, 0, 1⟩
  let q1 := reb_rotation_init_from_to newz z
  let x : reb_vec3d := ⟨1, 0, 0⟩
  let newx2 := reb_vec3d_irotate newx q1
  let q2 := reb_rotation_init_from_to newx2 x
  reb_rotation_mul q2 q1

/-- The composition that the specification text ascribes to `toNewAxes`
(for comparison with `reb_rotation_init_to_new_axes`): first
`fromTo(worldZ, newz)`, then `fromTo(rotatedNewx, worldX)` where
`rotatedNewx` is `newx` after the first rotation. -/
def spec_to_new_axes (newz newx : reb_vec3d) : reb_rotation :=
  let z : reb_vec3d := ⟨0, 0, 1⟩
  let q1 := reb_rotation_init_from_to z newz
  let x : reb_vec3d := ⟨1, 0, 0⟩
  let newx2 := reb_vec3d_irotate newx q1
  let q2 := reb_rotation_init_from_to newx2 x
  reb_rotation_mul q2 q1

/-- `reb_rotation_init_orbital`: 3-1-3 Euler sequence `P3 * (P2 * P1)`. -/
def reb_rotation_init_orbital (Omega inc omega : ℝ) : reb_rotation :=
  let x : reb_vec3d := ⟨1, 0, 0⟩
  let z : reb_vec3d := ⟨0, 0, 1⟩
  let P1 := reb_rotation_init_angle_axis omega z
  let P2 := reb_rotation_init_angle_axis inc x
  let P3 := reb_rotation_init_angle_axis Omega z
  reb_rotation_mul P3 (reb_rotation_mul P2 P1)

/-- `MIN_INC`, the inclination tolerance of `reb_rotation_to_orbital`. -/
def MIN_INC : ℝ := 1e-8

/-- C's `atan2(y, x)`: the argument of the complex number `x + y*I`,
in the interval (-pi, pi]. -/
def atan2 (y x : ℝ) : ℝ :=
  Complex.arg (Complex.ofReal x + Complex.ofReal y * Complex.I)

/-- `reb_rotation_to_orbital`, modelled functionally: the triple
`(Omega, inc, omega)` written through the three out-parameters. -/
def reb_rotation_to_orbital (q : reb_rotation) : ℝ × ℝ × ℝ :=
  let ap := q.r
  let bp := q.iz
  let cp := q.ix
  let dp := q.iy
  let inc := Real.arccos (2 * (ap * ap + bp * bp) - 1)
  let Omega0 : ℝ :=
    if MIN_INC < |inc| ∧ MIN_INC < |inc - Real.pi| then atan2 bp ap + atan2 dp cp
    else 0
  let omega0 : ℝ :=
    if MIN_INC < |inc| ∧ MIN_INC < |inc - Real.pi| then atan2 bp ap - atan2 dp cp
    else if ¬ MIN_INC < |inc| then 2 * atan2 bp ap
    else 2 * atan2 dp cp
  let omega1 := if omega0 < 0 then omega0 + Real.pi * 2 else omega0
  let Omega1 := if Omega0 < 0 then Omega0 + Real.pi * 2 else Omega0
  (Omega1, inc, omega1)

end

/-! ### Basic vector and quaternion lemmas -/

/-- A squared vector length is nonnegative. -/
theorem reb_vec3d_length_squared_nonneg (v : reb_vec3d) :
    0 ≤ reb_vec3d_length_squared v := by
  simp only [reb_vec3d_length_squared, reb_vec3d_dot]
  nlinarith [mul_self_nonneg v.x, mul_self_nonneg v.y, mul_self_nonneg v.z]

/-- A vector with zero squared length is the zero vector. -/
theorem reb_vec3d_eq_zero_of_ls (v : reb_vec3d) (h : reb_vec3d_length_squared v = 0) :
    v = ⟨0, 0, 0⟩ := by
  simp only [reb_vec3d_length_squared, reb_vec3d_dot] at h
  ext
  · exact mul_self_eq_zero.mp (le_antisymm
      (by nlinarith [mul_self_nonneg v.y, mul_self_nonneg v.z]) (mul_self_nonneg v.x))
  · exact mul_self_eq_zero.mp (le_antisymm
      (by nlinarith [mul_self_nonneg v.x, mul_self_nonneg v.z]) (mul_self_nonneg v.y))
  · exact mul_self_eq_zero.mp (le_antisymm
      (by nlinarith [mul_self_nonneg v.x, mul_self_nonneg v.y]) (mul_self_nonneg v.z))

/-- Normalizing the zero vector yields the zero vector (real-division model). -/
theorem reb_vec3d_normalize_zero :
    reb_vec3d_normalize ⟨0, 0, 0⟩ = ⟨0, 0, 0⟩ := by
  simp [reb_vec3d_normalize, reb_vec3d_mul, reb_vec3d_length_squared, reb_vec3d_dot]

/-- Normalizing a vector of nonzero length produces a unit vector. -/
theorem reb_vec3d_normalize_unit (v : reb_vec3d) (h : reb_vec3d_length_squared v ≠ 0) :
    reb_vec3d_dot (reb_vec3d_normalize v) (reb_vec3d_normalize v) = 1 := by
  have h0 := reb_vec3d_length_squared_nonneg v
  have hs := Real.mul_self_sqrt h0
  have hs0 : Real.sqrt (reb_vec3d_length_squared v) ≠ 0 := by
    rw [Real.sqrt_ne_zero']
    exact lt_of_le_of_ne h0 (Ne.symm h)
  simp only [reb_vec3d_length_squared, reb_vec3d_dot] at hs hs0 ⊢
  simp only [reb_vec3d_normalize, reb_vec3d_mul, reb_vec3d_length_squared, reb_vec3d_dot]
  field_simp
  linear_combination -hs

/-- The squared quaternion norm is multiplicative (Euler four-square identity). -/
theorem reb_rotation_length_squared_mul (p q : reb_rotation) :
    reb_rotation_length_squared (reb_rotation_mul p q) =
      reb_rotation_length_squared p * reb_rotation_length_squared q := by
  simp only [reb_rotation_length_squared, reb_rotation_mul]
  ring

/-- Componentwise closed form of `reb_rotation_init_from_to_reduced`. -/
theorem from_to_reduced_eq (f t : reb_vec3d) :
    reb_rotation_init_from_to_reduced f t =
      ⟨(f.y * t.z - f.z * t.y) / Real.sqrt (reb_vec3d_length_squared (reb_vec3d_add f t)),
       (f.z * t.x - f.x * t.z) / Real.sqrt (reb_vec3d_length_squared (reb_vec3d_add f t)),
       (f.x * t.y - f.y * t.x) / Real.sqrt (reb_vec3d_length_squared (reb_vec3d_add f t)),
       (reb_vec3d_dot f f + reb_vec3d_dot f t) /
         Real.sqrt (reb_vec3d_length_squared (reb_vec3d_add f t))⟩ := by
  ext <;>
    simp only [reb_rotation_init_from_to_reduced, reb_vec3d_normalize, reb_vec3d_mul,
      reb_vec3d_cross, reb_vec3d_dot, reb_vec3d_length_squared, reb_vec3d_add] <;>
    ring

/-- Core half-vector computation: rotating a unit `f` by the quaternion
`(cross(f,t)/sigma, (1+dot(f,t))/sigma)` yields `t`, for any sigma with
`sigma^2 = 2 + 2*dot(f,t)` (the squared length of `f+t`). -/
theorem from_to_reduced_core (f t : reb_vec3d) (σ : ℝ) (hσ0 : σ ≠ 0)
    (hσ2 : σ * σ = 2 + 2 * reb_vec3d_dot f t)
    (hf : reb_vec3d_dot f f = 1) (ht : reb_vec3d_dot t t = 1) :
    reb_vec3d_rotate f
      ⟨(f.y * t.z - f.z * t.y) / σ, (f.z * t.x - f.x * t.z) / σ,
       (f.x * t.y - f.y * t.x) / σ, (1 + reb_vec3d_dot f t) / σ⟩ = t := by
  simp only [reb_vec3d_dot] at hσ2 hf ht
  ext
  · simp only [reb_vec3d_rotate, reb_vec3d_irotate, reb_rotation_imag, reb_vec3d_mul,
      reb_vec3d_cross, reb_vec3d_add, reb_vec3d_dot]
    field_simp
    linear_combination (f.x - t.x) * hσ2 +
      (2 * t.x * (1 + (f.x * t.x + f.y * t.y + f.z * t.z)) -
        2 * f.x * (t.x * t.x + t.y * t.y + t.z * t.z)) * hf +
      (-2 * f.x) * ht
  · simp only [reb_vec3d_rotate, reb_vec3d_irotate, reb_rotation_imag, reb_vec3d_mul,
      reb_vec3d_cross, reb_vec3d_add, reb_vec3d_dot]
    field_simp
    linear_combination (f.y - t.y) * hσ2 +
      (2 * t.y * (1 + (f.x * t.x + f.y * t.y + f.z * t.z)) -
        2 * f.y * (t.x * t.x + t.y * t.y + t.z * t.z)) * hf +
      (-2 * f.y) * ht
  · simp only [reb_vec3d_rotate, reb_vec3d_irotate, reb_rotation_imag, reb_vec3d_mul,
      reb_vec3d_cross, reb_vec3d_add, reb_vec3d_dot]
    field_simp
    linear_combination (f.z - t.z) * hσ2 +
      (2 * t.z * (1 + (f.x * t.x + f.y * t.y + f.z * t.z)) -
        2 * f.z * (t.x * t.x + t.y * t.y + t.z * t.z)) * hf +
      (-2 * f.z) * ht

/-- Squared length of the sum of two unit vectors. -/
theorem ls_add_units (f t : reb_vec3d) (hf : reb_vec3d_dot f f = 1)
    (ht : reb_vec3d_dot t t = 1) :
    reb_vec3d_length_squared (reb_vec3d_add f t) = 2 + 2 * reb_vec3d_dot f t := by
  simp only [reb_vec3d_length_squared, reb_vec3d_dot, reb_vec3d_add] at hf ht ⊢
  linear_combination hf + ht

/-- `reb_rotation_init_from_to_reduced` maps `f` to `t`, for unit vectors
whose sum has nonzero squared length. -/
theorem from_to_reduced_rotates (f t : reb_vec3d) (hf : reb_vec3d_dot f f = 1)
    (ht : reb_vec3d_dot t t = 1)
    (hw : reb_vec3d_length_squared (reb_vec3d_add f t) ≠ 0) :
    reb_vec3d_rotate f (reb_rotation_init_from_to_reduced f t) = t := by
  have h0 := reb_vec3d_length_squared_nonneg (reb_vec3d_add f t)
  have hs := Real.mul_self_sqrt h0
  have hs0 : Real.sqrt (reb_vec3d_length_squared (reb_vec3d_add f t)) ≠ 0 := by
    rw [Real.sqrt_ne_zero']
    exact lt_of_le_of_ne h0 (Ne.symm hw)
  rw [from_to_reduced_eq, hf]
  exact from_to_reduced_core f t _ hs0 (by rw [hs, ls_add_units f t hf ht]) hf ht

/-- Core norm computation for the reduced quaternion. -/
theorem from_to_reduced_unit_core (f t : reb_vec3d) (σ : ℝ) (hσ0 : σ ≠ 0)
    (hσ2 : σ * σ = 2 + 2 * reb_vec3d_dot f t)
    (hf : reb_vec3d_dot f f = 1) (ht : reb_vec3d_dot t t = 1) :
    reb_rotation_length_squared
      ⟨(f.y * t.z - f.z * t.y) / σ, (f.z * t.x - f.x * t.z) / σ,
       (f.x * t.y - f.y * t.x) / σ, (1 + reb_vec3d_dot f t) / σ⟩ = 1 := by
  simp only [reb_vec3d_dot] at hσ2 hf ht
  simp only [reb_rotation_length_squared, reb_vec3d_dot]
  field_simp
  linear_combination -hσ2 + (t.x * t.x + t.y * t.y + t.z * t.z) * hf + ht

/-- The reduced quaternion of two unit vectors with nonzero sum has unit norm. -/
theorem from_to_reduced_unit (f t : reb_vec3d) (hf : reb_vec3d_dot f f = 1)
    (ht : reb_vec3d_dot t t = 1)
    (hw : reb_vec3d_length_squared (reb_vec3d_add f t) ≠ 0) :
    reb_rotation_length_squared (reb_rotation_init_from_to_reduced f t) = 1 := by
  have h0 := reb_vec3d_length_squared_nonneg (reb_vec3d_add f t)
  have hs := Real.mul_self_sqrt h0
  have hs0 : Real.sqrt (reb_vec3d_length_squared (reb_vec3d_add f t)) ≠ 0 := by
    rw [Real.sqrt_ne_zero']
    exact lt_of_le_of_ne h0 (Ne.symm hw)
  rw [from_to_reduced_eq, hf]
  exact from_to_reduced_unit_core f t _ hs0 (by rw [hs, ls_add_units f t hf ht]) hf ht

/-- The real part of the quaternion sandwich `q * v * conj(q)` of a pure
quaternion `v` vanishes identically. -/
theorem sandwich_r (q : reb_rotation) (v : reb_vec3d) :
    (reb_rotation_mul (reb_rotation_mul q ⟨v.x, v.y, v.z, 0⟩)
      (reb_rotation_conjugate q)).r = 0 := by
  simp only [reb_rotation_mul, reb_rotation_conjugate]
  ring

/-- For a unit quaternion, the optimized rotation formula agrees with the
quaternion sandwich product. -/
theorem rotate_eq_sandwich (q : reb_rotation) (v : reb_vec3d)
    (hq : reb_rotation_length_squared q = 1) :
    reb_vec3d_rotate v q =
      reb_rotation_imag (reb_rotation_mul (reb_rotation_mul q ⟨v.x, v.y, v.z, 0⟩)
        (reb_rotation_conjugate q)) := by
  simp only [reb_rotation_length_squared] at hq
  ext
  · simp only [reb_vec3d_rotate, reb_vec3d_irotate, reb_rotation_imag, reb_vec3d_mul,
      reb_vec3d_cross, reb_vec3d_add, reb_rotation_mul, reb_rotation_conjugate]
    linear_combination -v.x * hq
  · simp only [reb_vec3d_rotate, reb_vec3d_irotate, reb_rotation_imag, reb_vec3d_mul,
      reb_vec3d_cross, reb_vec3d_add, reb_rotation_mul, reb_rotation_conjugate]
    linear_combination -v.y * hq
  · simp only [reb_vec3d_rotate, reb_vec3d_irotate, reb_rotation_imag, reb_vec3d_mul,
      reb_vec3d_cross, reb_vec3d_add, reb_rotation_mul, reb_rotation_conjugate]
    linear_combination -v.z * hq

/-- The sandwich of a product equals the nested sandwiches (associativity of
the Hamilton product together with the vanishing inner real part). -/
theorem sandwich_mul (p q : reb_rotation) (v : reb_vec3d) :
    reb_rotation_mul
      (reb_rotation_mul (reb_rotation_mul p q) ⟨v.x, v.y, v.z, 0⟩)
      (reb_rotation_conjugate (reb_rotation_mul p q)) =
    reb_rotation_mul
      (reb_rotation_mul p
        ⟨(reb_rotation_imag (reb_rotation_mul (reb_rotation_mul q ⟨v.x, v.y, v.z, 0⟩)
            (reb_rotation_conjugate q))).x,
         (reb_rotation_imag (reb_rotation_mul (reb_rotation_mul q ⟨v.x, v.y, v.z, 0⟩)
            (reb_rotation_conjugate q))).y,
         (reb_rotation_imag (reb_rotation_mul (reb_rotation_mul q ⟨v.x, v.y, v.z, 0⟩)
            (reb_rotation_conjugate q))).z, 0⟩)
      (reb_rotation_conjugate p) := by
  ext <;>
    simp only [reb_rotation_mul, reb_rotation_conjugate, reb_rotation_imag] <;>
    ring

/-- Rotating by a product of unit quaternions applies the right factor first. -/
theorem rotate_mul_of_unit (v : reb_vec3d) (p q : reb_rotation)
    (hp : reb_rotation_length_squared p = 1) (hq : reb_rotation_length_squared q = 1) :
    reb_vec3d_rotate v (reb_rotation_mul p q) =
      reb_vec3d_rotate (reb_vec3d_rotate v q) p := by
  have hpq : reb_rotation_length_squared (reb_rotation_mul p q) = 1 := by
    rw [reb_rotation_length_squared_mul, hp, hq, mul_one]
  rw [rotate_eq_sandwich _ _ hpq, rotate_eq_sandwich q v hq,
    rotate_eq_sandwich p _ hp, sandwich_mul]

/-- Branch characterization of `reb_rotation_init_from_to`: angle at most 90. -/
theorem from_to_branch_small (fv tv : reb_vec3d)
    (h : 0 ≤ reb_vec3d_dot (reb_vec3d_normalize fv) (reb_vec3d_normalize tv)) :
    reb_rotation_init_from_to fv tv =
      reb_rotation_init_from_to_reduced (reb_vec3d_normalize fv) (reb_vec3d_normalize tv) := by
  simp only [reb_rotation_init_from_to]
  rw [if_pos h]

/-- Branch characterization of `reb_rotation_init_from_to`: two-stage branch. -/
theorem from_to_branch_two_stage (fv tv : reb_vec3d)
    (h1 : ¬ 0 ≤ reb_vec3d_dot (reb_vec3d_normalize fv) (reb_vec3d_normalize tv))
    (h2 : reb_vec3d_length_squared (reb_vec3d_normalize
      (reb_vec3d_add (reb_vec3d_normalize fv) (reb_vec3d_normalize tv))) ≠ 0) :
    reb_rotation_init_from_to fv tv =
      reb_rotation_mul
        (reb_rotation_init_from_to_reduced (reb_vec3d_normalize fv)
          (reb_vec3d_normalize (reb_vec3d_add (reb_vec3d_normalize fv) (reb_vec3d_normalize tv))))
        (reb_rotation_init_from_to_reduced
          (reb_vec3d_normalize (reb_vec3d_add (reb_vec3d_normalize fv) (reb_vec3d_normalize tv)))
          (reb_vec3d_normalize tv)) := by
  simp only [reb_rotation_init_from_to, reb_vec3d_add] at h2 ⊢
  rw [if_neg h1, if_neg h2]

/-- Branch characterization of `reb_rotation_init_from_to`: antipodal fallback. -/
theorem from_to_branch_fallback (fv tv : reb_vec3d)
    (h1 : ¬ 0 ≤ reb_vec3d_dot (reb_vec3d_normalize fv) (reb_vec3d_normalize tv))
    (h2 : reb_vec3d_length_squared (reb_vec3d_normalize
      (reb_vec3d_add (reb_vec3d_normalize fv) (reb_vec3d_normalize tv))) = 0) :
    reb_rotation_init_from_to fv tv =
      reb_rotation_init_from_to_fallback (reb_vec3d_normalize fv) := by
  simp only [reb_rotation_init_from_to, reb_vec3d_add] at h2 ⊢
  rw [if_neg h1, if_pos h2]

/-- Dot product of `f` with the normalized sum `normalize(f+t)`, for unit `f`. -/
theorem dot_normalize_add_left (f t : reb_vec3d) (hf : reb_vec3d_dot f f = 1) :
    reb_vec3d_dot f (reb_vec3d_normalize (reb_vec3d_add f t)) =
      (1 + reb_vec3d_dot f t) /
        Real.sqrt (reb_vec3d_length_squared (reb_vec3d_add f t)) := by
  simp only [reb_vec3d_dot] at hf
  simp only [reb_vec3d_normalize, reb_vec3d_mul, reb_vec3d_add, reb_vec3d_dot,
    reb_vec3d_length_squared]
  linear_combination (1 / Real.sqrt ((f.x + t.x) * (f.x + t.x) + (f.y + t.y) * (f.y + t.y) +
    (f.z + t.z) * (f.z + t.z))) * hf

/-- Dot product of the normalized sum `normalize(f+t)` with `t`, for unit `t`. -/
theorem dot_normalize_add_right (f t : reb_vec3d) (ht : reb_vec3d_dot t t = 1) :
    reb_vec3d_dot (reb_vec3d_normalize (reb_vec3d_add f t)) t =
      (reb_vec3d_dot f t + 1) /
        Real.sqrt (reb_vec3d_length_squared (reb_vec3d_add f t)) := by
  simp only [reb_vec3d_dot] at ht
  simp only [reb_vec3d_normalize, reb_vec3d_mul, reb_vec3d_add, reb_vec3d_dot,
    reb_vec3d_length_squared]
  linear_combination (1 / Real.sqrt ((f.x + t.x) * (f.x + t.x) + (f.y + t.y) * (f.y + t.y) +
    (f.z + t.z) * (f.z + t.z))) * ht

/-- The two half-rotations of the two-stage branch commute: both have
imaginary parts proportional to `cross(f, t)`. -/
theorem two_stage_comm (f t : reb_vec3d) :
    reb_rotation_mul
      (reb_rotation_init_from_to_reduced f (reb_vec3d_normalize (reb_vec3d_add f t)))
      (reb_rotation_init_from_to_reduced (reb_vec3d_normalize (reb_vec3d_add f t)) t) =
    reb_rotation_mul
      (reb_rotation_init_from_to_reduced (reb_vec3d_normalize (reb_vec3d_add f t)) t)
      (reb_rotation_init_from_to_reduced f (reb_vec3d_normalize (reb_vec3d_add f t))) := by
  ext <;>
    simp only [reb_rotation_mul, reb_rotation_init_from_to_reduced, reb_vec3d_normalize,
      reb_vec3d_mul, reb_vec3d_add, reb_vec3d_cross, reb_vec3d_dot,
      reb_vec3d_length_squared] <;>
    ring

/-- Evaluation: normalizing the unit vector (1,0,0). -/
theorem normalize_unit_x : reb_vec3d_normalize ⟨1, 0, 0⟩ = ⟨1, 0, 0⟩ := by
  ext <;> norm_num [reb_vec3d_normalize, reb_vec3d_mul, reb_vec3d_length_squared,
    reb_vec3d_dot, Real.sqrt_one]

/-- Evaluation: normalizing the unit vector (-1,0,0). -/
theorem normalize_unit_negx : reb_vec3d_normalize ⟨-1, 0, 0⟩ = ⟨-1, 0, 0⟩ := by
  ext <;> norm_num [reb_vec3d_normalize, reb_vec3d_mul, reb_vec3d_length_squared,
    reb_vec3d_dot, Real.sqrt_one]

/-- Evaluation: normalizing the unit vector (0,1,0). -/
theorem normalize_unit_y : reb_vec3d_normalize ⟨0, 1, 0⟩ = ⟨0, 1, 0⟩ := by
  ext <;> norm_num [reb_vec3d_normalize, reb_vec3d_mul, reb_vec3d_length_squared,
    reb_vec3d_dot, Real.sqrt_one]

/-- Evaluation: normalizing the unit vector (0,0,1). -/
theorem normalize_unit_z : reb_vec3d_normalize ⟨0, 0, 1⟩ = ⟨0, 0, 1⟩ := by
  ext <;> norm_num [reb_vec3d_normalize, reb_vec3d_mul, reb_vec3d_length_squared,
    reb_vec3d_dot, Real.sqrt_one]

/-- Claim C5: for every vector v and unit quaternions p, q, rotating by the
Hamilton product `mul(p,q)` applies q first and then p:
`rotate(v, mul(p,q)) = rotate(rotate(v,q), p)`. -/
theorem c5_rotate_mul (v : reb_vec3d) (p q : reb_rotation)
    (hp : reb_rotation_length_squared p = 1) (hq : reb_rotation_length_squared q = 1) :
    reb_vec3d_rotate v (reb_rotation_mul p q) =
      reb_vec3d_rotate (reb_vec3d_rotate v q) p :=
  rotate_mul_of_unit v p q hp hq

/-- Witness for C5 at the identity quaternion and v = (1,2,3). -/
theorem c5_rotate_mul_witness :
    reb_rotation_length_squared reb_rotation_identity = 1 ∧
    reb_vec3d_rotate ⟨1, 2, 3⟩ (reb_rotation_mul reb_rotation_identity reb_rotation_identity) =
      reb_vec3d_rotate (reb_vec3d_rotate ⟨1, 2, 3⟩ reb_rotation_identity)
        reb_rotation_identity :=
  ⟨by norm_num [reb_rotation_length_squared, reb_rotation_identity],
   c5_rotate_mul ⟨1, 2, 3⟩ reb_rotation_identity reb_rotation_identity
     (by norm_num [reb_rotation_length_squared, reb_rotation_identity])
     (by norm_num [reb_rotation_length_squared, reb_rotation_identity])⟩

/-- Claim C6: for every quaternion of nonzero norm (not only unit ones),
`mul(q, inverse(q)) = identity()`. -/
theorem c6_mul_inverse (q : reb_rotation) (h : reb_rotation_length_squared q ≠ 0) :
    reb_rotation_mul q (reb_rotation_inverse q) = reb_rotation_identity := by
  simp only [reb_rotation_length_squared] at h
  ext <;>
    simp only [reb_rotation_mul, reb_rotation_inverse, reb_rotation_conjugate,
      reb_rotation_identity, reb_rotation_length_squared] <;>
    field_simp <;>
    ring

/-- Witness for C6 at the non-unit quaternion (0,0,0,2). -/
theorem c6_mul_inverse_witness :
    reb_rotation_length_squared ⟨0, 0, 0, 2⟩ ≠ 0 ∧
    reb_rotation_mul ⟨0, 0, 0, 2⟩ (reb_rotation_inverse ⟨0, 0, 0, 2⟩) =
      reb_rotation_identity :=
  ⟨by norm_num [reb_rotation_length_squared],
   c6_mul_inverse ⟨0, 0, 0, 2⟩ (by norm_num [reb_rotation_length_squared])⟩

/-- Claim C3: for nonzero vectors a, b whose computation takes the
small-angle branch or the two-stage branch (not the antipodal fallback),
`fromTo(a,b)` rotates `normalize(a)` exactly onto `normalize(b)`. -/
theorem c3_from_to_maps (a b : reb_vec3d)
    (ha : reb_vec3d_length_squared a ≠ 0) (hb : reb_vec3d_length_squared b ≠ 0)
    (hbranch : 0 ≤ reb_vec3d_dot (reb_vec3d_normalize a) (reb_vec3d_normalize b) ∨
      reb_vec3d_length_squared (reb_vec3d_normalize
        (reb_vec3d_add (reb_vec3d_normalize a) (reb_vec3d_normalize b))) ≠ 0) :
    reb_vec3d_rotate (reb_vec3d_normalize a) (reb_rotation_init_from_to a b) =
      reb_vec3d_normalize b := by
  have hf := reb_vec3d_normalize_unit a ha
  have ht := reb_vec3d_normalize_unit b hb
  by_cases hd : 0 ≤ reb_vec3d_dot (reb_vec3d_normalize a) (reb_vec3d_normalize b)
  · rw [from_to_branch_small a b hd]
    apply from_to_reduced_rotates _ _ hf ht
    rw [ls_add_units _ _ hf ht]
    exact ne_of_gt (by linarith)
  · have hhalf : reb_vec3d_length_squared (reb_vec3d_normalize
        (reb_vec3d_add (reb_vec3d_normalize a) (reb_vec3d_normalize b))) ≠ 0 :=
      hbranch.resolve_left hd
    have hsum : reb_vec3d_length_squared
        (reb_vec3d_add (reb_vec3d_normalize a) (reb_vec3d_normalize b)) ≠ 0 := by
      intro h0
      apply hhalf
      rw [reb_vec3d_eq_zero_of_ls _ h0, reb_vec3d_normalize_zero]
      simp [reb_vec3d_length_squared, reb_vec3d_dot]
    have hLpos : 0 < reb_vec3d_length_squared
        (reb_vec3d_add (reb_vec3d_normalize a) (reb_vec3d_normalize b)) :=
      lt_of_le_of_ne (reb_vec3d_length_squared_nonneg _) (Ne.symm hsum)
    have hh := reb_vec3d_normalize_unit _ hsum
    have hdgt : -1 < reb_vec3d_dot (reb_vec3d_normalize a) (reb_vec3d_normalize b) := by
      have := ls_add_units _ _ hf ht
      linarith [hLpos.trans_eq this]
    have hdfh : 0 < reb_vec3d_dot (reb_vec3d_normalize a)
        (reb_vec3d_normalize (reb_vec3d_add (reb_vec3d_normalize a) (reb_vec3d_normalize b))) := by
      rw [dot_normalize_add_left _ _ hf]
      exact div_pos (by linarith) (Real.sqrt_pos.mpr hLpos)
    have hdht : 0 < reb_vec3d_dot
        (reb_vec3d_normalize (reb_vec3d_add (reb_vec3d_normalize a) (reb_vec3d_normalize b)))
        (reb_vec3d_normalize b) := by
      rw [dot_normalize_add_right _ _ ht]
      exact div_pos (by linarith) (Real.sqrt_pos.mpr hLpos)
    have hsum_fh : reb_vec3d_length_squared (reb_vec3d_add (reb_vec3d_normalize a)
        (reb_vec3d_normalize (reb_vec3d_add (reb_vec3d_normalize a) (reb_vec3d_normalize b)))) ≠ 0 := by
      rw [ls_add_units _ _ hf hh]
      exact ne_of_gt (by linarith)
    have hsum_ht : reb_vec3d_length_squared (reb_vec3d_add
        (reb_vec3d_normalize (reb_vec3d_add (reb_vec3d_normalize a) (reb_vec3d_normalize b)))
        (reb_vec3d_normalize b)) ≠ 0 := by
      rw [ls_add_units _ _ hh ht]
      exact ne_of_gt (by linarith)
    rw [from_to_branch_two_stage a b hd hhalf, two_stage_comm,
      rotate_mul_of_unit _ _ _ (from_to_reduced_unit _ _ hh ht hsum_ht)
        (from_to_reduced_unit _ _ hf hh hsum_fh),
      from_to_reduced_rotates _ _ hf hh hsum_fh]
    exact from_to_reduced_rotates _ _ hh ht hsum_ht

/-- Witness for C3 at a = (1,0,0), b = (0,1,0) (small-angle branch). -/
theorem c3_from_to_maps_witness :
    reb_vec3d_length_squared (⟨1, 0, 0⟩ : reb_vec3d) ≠ 0 ∧
    reb_vec3d_length_squared (⟨0, 1, 0⟩ : reb_vec3d) ≠ 0 ∧
    0 ≤ reb_vec3d_dot (reb_vec3d_normalize ⟨1, 0, 0⟩) (reb_vec3d_normalize ⟨0, 1, 0⟩) ∧
    reb_vec3d_rotate (reb_vec3d_normalize ⟨1, 0, 0⟩)
        (reb_rotation_init_from_to ⟨1, 0, 0⟩ ⟨0, 1, 0⟩) =
      reb_vec3d_normalize ⟨0, 1, 0⟩ := by
  have h1 : reb_vec3d_length_squared (⟨1, 0, 0⟩ : reb_vec3d) ≠ 0 := by
    norm_num [reb_vec3d_length_squared, reb_vec3d_dot]
  have h2 : reb_vec3d_length_squared (⟨0, 1, 0⟩ : reb_vec3d) ≠ 0 := by
    norm_num [reb_vec3d_length_squared, reb_vec3d_dot]
  have h3 : 0 ≤ reb_vec3d_dot (reb_vec3d_normalize ⟨1, 0, 0⟩) (reb_vec3d_normalize ⟨0, 1, 0⟩) := by
    rw [normalize_unit_x, normalize_unit_y]
    norm_num [reb_vec3d_dot]
  exact ⟨h1, h2, h3, c3_from_to_maps ⟨1, 0, 0⟩ ⟨0, 1, 0⟩ h1 h2 (Or.inl h3)⟩

/-- Claim C1: `fromTo((1,0,0),(-1,0,0))` takes the antipodal fallback branch
(negative dot product and zero-length half vector), returns the pure 180
degree rotation (0,0,1,0) with real part 0, and rotating (1,0,0) by it
yields exactly (-1,0,0). -/
theorem c1_antipodal_concrete :
    (¬ 0 ≤ reb_vec3d_dot (reb_vec3d_normalize ⟨1, 0, 0⟩) (reb_vec3d_normalize ⟨-1, 0, 0⟩)) ∧
    reb_vec3d_length_squared (reb_vec3d_normalize
      (reb_vec3d_add (reb_vec3d_normalize ⟨1, 0, 0⟩) (reb_vec3d_normalize ⟨-1, 0, 0⟩))) = 0 ∧
    reb_rotation_init_from_to ⟨1, 0, 0⟩ ⟨-1, 0, 0⟩ =
      reb_rotation_init_from_to_fallback (reb_vec3d_normalize ⟨1, 0, 0⟩) ∧
    reb_rotation_init_from_to ⟨1, 0, 0⟩ ⟨-1, 0, 0⟩ = ⟨0, 0, 1, 0⟩ ∧
    (reb_rotation_init_from_to ⟨1, 0, 0⟩ ⟨-1, 0, 0⟩).r = 0 ∧
    reb_vec3d_rotate ⟨1, 0, 0⟩ (reb_rotation_init_from_to ⟨1, 0, 0⟩ ⟨-1, 0, 0⟩) =
      ⟨-1, 0, 0⟩ := by
  have h1 : ¬ 0 ≤ reb_vec3d_dot (reb_vec3d_normalize ⟨1, 0, 0⟩)
      (reb_vec3d_normalize ⟨-1, 0, 0⟩) := by
    rw [normalize_unit_x, normalize_unit_negx]
    norm_num [reb_vec3d_dot]
  have hadd : reb_vec3d_add (reb_vec3d_normalize ⟨1, 0, 0⟩) (reb_vec3d_normalize ⟨-1, 0, 0⟩) =
      ⟨0, 0, 0⟩ := by
    rw [normalize_unit_x, normalize_unit_negx]
    ext <;> norm_num [reb_vec3d_add]
  have h2 : reb_vec3d_length_squared (reb_vec3d_normalize
      (reb_vec3d_add (reb_vec3d_normalize ⟨1, 0, 0⟩) (reb_vec3d_normalize ⟨-1, 0, 0⟩))) = 0 := by
    rw [hadd, reb_vec3d_normalize_zero]
    norm_num [reb_vec3d_length_squared, reb_vec3d_dot]
  have h3 := from_to_branch_fallback ⟨1, 0, 0⟩ ⟨-1, 0, 0⟩ h1 h2
  have h4 : reb_rotation_init_from_to_fallback (reb_vec3d_normalize ⟨1, 0, 0⟩) =
      (⟨0, 0, 1, 0⟩ : reb_rotation) := by
    rw [normalize_unit_x]
    simp only [reb_rotation_init_from_to_fallback]
    rw [if_neg (by norm_num), if_pos (by norm_num)]
    ext <;> norm_num [reb_vec3d_cross]
  refine ⟨h1, h2, h3, h3.trans h4, ?_, ?_⟩
  · rw [h3, h4]
  · rw [h3, h4]
    ext <;>
      norm_num [reb_vec3d_rotate, reb_vec3d_irotate, reb_rotation_imag, reb_vec3d_mul,
        reb_vec3d_cross, reb_vec3d_add]

/-- Evaluation: `fromTo((1,0,0),(0,0,1))` is the 90-degree rotation about -y. -/
theorem eval_from_to_x_z :
    reb_rotation_init_from_to ⟨1, 0, 0⟩ ⟨0, 0, 1⟩ =
      ⟨0, -(1 / Real.sqrt 2), 0, 1 / Real.sqrt 2⟩ := by
  rw [from_to_branch_small _ _ (by
    rw [normalize_unit_x, normalize_unit_z]; norm_num [reb_vec3d_dot])]
  rw [normalize_unit_x, normalize_unit_z, from_to_reduced_eq]
  have h2 : reb_vec3d_length_squared (reb_vec3d_add ⟨1, 0, 0⟩ ⟨0, 0, 1⟩) = 2 := by
    norm_num [reb_vec3d_length_squared, reb_vec3d_dot, reb_vec3d_add]
  rw [h2]
  ext
  · norm_num [reb_vec3d_dot]
  · norm_num [reb_vec3d_dot]
    ring
  · norm_num [reb_vec3d_dot]
  · norm_num [reb_vec3d_dot]

/-- Evaluation: rotating (0,0,1) by the 90-degree rotation about -y gives (-1,0,0). -/
theorem eval_irotate_z_about_negy :
    reb_vec3d_irotate ⟨0, 0, 1⟩ ⟨0, -(1 / Real.sqrt 2), 0, 1 / Real.sqrt 2⟩ =
      ⟨-1, 0, 0⟩ := by
  have h22 : Real.sqrt 2 * Real.sqrt 2 = 2 := Real.mul_self_sqrt (by norm_num)
  have h20 : Real.sqrt 2 ≠ 0 := by
    rw [Real.sqrt_ne_zero']
    norm_num
  ext <;>
    simp only [reb_vec3d_irotate, reb_rotation_imag, reb_vec3d_mul, reb_vec3d_cross,
      reb_vec3d_add] <;>
    field_simp <;>
    linear_combination h22

/-- Evaluation: `fromTo((-1,0,0),(1,0,0))` takes the fallback branch. -/
theorem eval_from_to_negx_x :
    reb_rotation_init_from_to ⟨-1, 0, 0⟩ ⟨1, 0, 0⟩ = ⟨0, 0, -1, 0⟩ := by
  have h1 : ¬ 0 ≤ reb_vec3d_dot (reb_vec3d_normalize ⟨-1, 0, 0⟩)
      (reb_vec3d_normalize ⟨1, 0, 0⟩) := by
    rw [normalize_unit_x, normalize_unit_negx]
    norm_num [reb_vec3d_dot]
  have hadd : reb_vec3d_add (reb_vec3d_normalize ⟨-1, 0, 0⟩) (reb_vec3d_normalize ⟨1, 0, 0⟩) =
      ⟨0, 0, 0⟩ := by
    rw [normalize_unit_x, normalize_unit_negx]
    ext <;> norm_num [reb_vec3d_add]
  have h2 : reb_vec3d_length_squared (reb_vec3d_normalize
      (reb_vec3d_add (reb_vec3d_normalize ⟨-1, 0, 0⟩) (reb_vec3d_normalize ⟨1, 0, 0⟩))) = 0 := by
    rw [hadd, reb_vec3d_normalize_zero]
    norm_num [reb_vec3d_length_squared, reb_vec3d_dot]
  rw [from_to_branch_fallback _ _ h1 h2, normalize_unit_negx]
  simp only [reb_rotation_init_from_to_fallback]
  rw [if_neg (by norm_num), if_pos (by norm_num)]
  ext <;> norm_num [reb_vec3d_cross]

/-- Evaluation: the rotation built by `toNewAxes((1,0,0),(0,0,1))`. -/
theorem eval_to_new_axes_concrete :
    reb_rotation_init_to_new_axes ⟨1, 0, 0⟩ ⟨0, 0, 1⟩ =
      ⟨-(1 / Real.sqrt 2), 0, -(1 / Real.sqrt 2), 0⟩ := by
  simp only [reb_rotation_init_to_new_axes]
  rw [eval_from_to_x_z, eval_irotate_z_about_negy, eval_from_to_negx_x]
  ext <;> simp [reb_rotation_mul] <;> ring

/-- Evaluation: `fromTo((0,0,1),(1,0,0))` is the 90-degree rotation about +y. -/
theorem eval_from_to_z_x :
    reb_rotation_init_from_to ⟨0, 0, 1⟩ ⟨1, 0, 0⟩ =
      ⟨0, 1 / Real.sqrt 2, 0, 1 / Real.sqrt 2⟩ := by
  rw [from_to_branch_small _ _ (by
    rw [normalize_unit_x, normalize_unit_z]; norm_num [reb_vec3d_dot])]
  rw [normalize_unit_x, normalize_unit_z, from_to_reduced_eq]
  have h2 : reb_vec3d_length_squared (reb_vec3d_add ⟨0, 0, 1⟩ ⟨1, 0, 0⟩) = 2 := by
    norm_num [reb_vec3d_length_squared, reb_vec3d_dot, reb_vec3d_add]
  rw [h2]
  ext <;> norm_num [reb_vec3d_dot]

/-- Evaluation: rotating (0,0,1) by the 90-degree rotation about +y gives (1,0,0). -/
theorem eval_irotate_z_about_posy :
    reb_vec3d_irotate ⟨0, 0, 1⟩ ⟨0, 1 / Real.sqrt 2, 0, 1 / Real.sqrt 2⟩ =
      ⟨1, 0, 0⟩ := by
  have h22 : Real.sqrt 2 * Real.sqrt 2 = 2 := Real.mul_self_sqrt (by norm_num)
  have h20 : Real.sqrt 2 ≠ 0 := by
    rw [Real.sqrt_ne_zero']
    norm_num
  ext <;>
    simp only [reb_vec3d_irotate, reb_rotation_imag, reb_vec3d_mul, reb_vec3d_cross,
      reb_vec3d_add] <;>
    field_simp <;>
    linear_combination h22

/-- Evaluation: `fromTo((1,0,0),(1,0,0))` is the identity quaternion. -/
theorem eval_from_to_x_x :
    reb_rotation_init_from_to ⟨1, 0, 0⟩ ⟨1, 0, 0⟩ = ⟨0, 0, 0, 1⟩ := by
  rw [from_to_branch_small _ _ (by rw [normalize_unit_x]; norm_num [reb_vec3d_dot])]
  rw [normalize_unit_x, from_to_reduced_eq]
  have h2 : reb_vec3d_length_squared (reb_vec3d_add ⟨1, 0, 0⟩ ⟨1, 0, 0⟩) = 4 := by
    norm_num [reb_vec3d_length_squared, reb_vec3d_dot, reb_vec3d_add]
  rw [h2]
  have h42 : Real.sqrt 4 = 2 := by
    rw [show (4 : ℝ) = 2 ^ 2 by norm_num, Real.sqrt_sq (by norm_num)]
  rw [h42]
  ext <;> norm_num [reb_vec3d_dot]

/-- Evaluation: the rotation built by the spec-side composition at the same input. -/
theorem eval_spec_axes_concrete :
    spec_to_new_axes ⟨1, 0, 0⟩ ⟨0, 0, 1⟩ =
      ⟨0, 1 / Real.sqrt 2, 0, 1 / Real.sqrt 2⟩ := by
  simp only [spec_to_new_axes]
  rw [eval_from_to_z_x, eval_irotate_z_about_posy, eval_from_to_x_x]
  ext <;> simp [reb_rotation_mul]

/-- Counterexample for claim C2: at `newz = (1,0,0)`, `newx = (0,0,1)`,
`toNewAxes` is not the composition built from `fromTo(worldZ, newz)` that the
claim describes (the real parts differ: 0 versus `1/sqrt 2`). -/
theorem c2_counterexample :
    reb_rotation_init_to_new_axes ⟨1, 0, 0⟩ ⟨0, 0, 1⟩ ≠
      spec_to_new_axes ⟨1, 0, 0⟩ ⟨0, 0, 1⟩ := by
  intro h
  have hr := congrArg reb_rotation.r h
  rw [eval_to_new_axes_concrete, eval_spec_axes_concrete] at hr
  simp only at hr
  have h2 : (0 : ℝ) < Real.sqrt 2 := Real.sqrt_pos.mpr (by norm_num)
  rw [eq_div_iff (ne_of_gt h2)] at hr
  norm_num at hr

/-- Claim C2 (amended): `toNewAxes(newz, newx)` composes first
`fromTo(newz, worldZ)` (note the argument order: it carries `newz` onto the
world z-axis, not the world z-axis onto `newz`) and then
`fromTo(rotatedNewx, worldX)`, where `rotatedNewx` is `newx` after the first
partial rotation; concretely, at `newz = (1,0,0)`, `newx = (0,0,1)` the
resulting rotation carries `newz` to the world z-axis. -/
theorem c2_to_new_axes_amended :
    (∀ newz newx : reb_vec3d,
      reb_rotation_init_to_new_axes newz newx =
        reb_rotation_mul
          (reb_rotation_init_from_to
            (reb_vec3d_irotate newx (reb_rotation_init_from_to newz ⟨0, 0, 1⟩)) ⟨1, 0, 0⟩)
          (reb_rotation_init_from_to newz ⟨0, 0, 1⟩)) ∧
    reb_vec3d_rotate ⟨1, 0, 0⟩ (reb_rotation_init_to_new_axes ⟨1, 0, 0⟩ ⟨0, 0, 1⟩) =
      ⟨0, 0, 1⟩ := by
  constructor
  · intro newz newx
    rfl
  · rw [eval_to_new_axes_concrete]
    have h22 : Real.sqrt 2 * Real.sqrt 2 = 2 := Real.mul_self_sqrt (by norm_num)
    have h20 : Real.sqrt 2 ≠ 0 := by
      rw [Real.sqrt_ne_zero']
      norm_num
    ext <;>
      simp only [reb_vec3d_rotate, reb_vec3d_irotate, reb_rotation_imag, reb_vec3d_mul,
        reb_vec3d_cross, reb_vec3d_add] <;>
      field_simp <;>
      linear_combination h22

/-- `angleAxis` returns a unit quaternion for every nonzero axis. -/
theorem angle_axis_unit (angle : ℝ) (axis : reb_vec3d)
    (h : reb_vec3d_length_squared axis ≠ 0) :
    reb_rotation_length_squared (reb_rotation_init_angle_axis angle axis) = 1 := by
  have hn := reb_vec3d_normalize_unit axis h
  simp only [reb_vec3d_dot] at hn
  simp only [reb_rotation_init_angle_axis, reb_rotation_length_squared, reb_vec3d_mul]
  linear_combination (Real.sin (angle / 2) * Real.sin (angle / 2)) * hn +
    Real.sin_sq_add_cos_sq (angle / 2)

/-- `initOrbital` always returns a unit quaternion. -/
theorem init_orbital_unit (Om i om : ℝ) :
    reb_rotation_length_squared (reb_rotation_init_orbital Om i om) = 1 := by
  simp only [reb_rotation_init_orbital]
  rw [reb_rotation_length_squared_mul, reb_rotation_length_squared_mul,
    angle_axis_unit om _ (by norm_num [reb_vec3d_length_squared, reb_vec3d_dot]),
    angle_axis_unit i _ (by norm_num [reb_vec3d_length_squared, reb_vec3d_dot]),
    angle_axis_unit Om _ (by norm_num [reb_vec3d_length_squared, reb_vec3d_dot])]
  norm_num

/-- The fallback branch always returns a quaternion with real part 0. -/
theorem fallback_r_eq_zero (v : reb_vec3d) :
    (reb_rotation_init_from_to_fallback v).r = 0 := by
  simp only [reb_rotation_init_from_to_fallback]
  split_ifs <;> rfl

/-- Claim C8: identity, angleAxis (nonzero axis) and initOrbital return unit
quaternions, the product of unit quaternions is a unit quaternion, while the
antipodal fallback returns r = 0 with an imaginary part that in general is
not unit (witnessed at the unit vector (1,1,1)/sqrt 3). -/
theorem c8_constructors_unit :
    reb_rotation_length_squared reb_rotation_identity = 1 ∧
    (∀ (angle : ℝ) (axis : reb_vec3d), reb_vec3d_length_squared axis ≠ 0 →
      reb_rotation_length_squared (reb_rotation_init_angle_axis angle axis) = 1) ∧
    (∀ Om i om : ℝ,
      reb_rotation_length_squared (reb_rotation_init_orbital Om i om) = 1) ∧
    (∀ p q : reb_rotation, reb_rotation_length_squared p = 1 →
      reb_rotation_length_squared q = 1 →
      reb_rotation_length_squared (reb_rotation_mul p q) = 1) ∧
    (∀ v : reb_vec3d, (reb_rotation_init_from_to_fallback v).r = 0) ∧
    reb_rotation_length_squared (reb_rotation_init_from_to_fallback
      ⟨(Real.sqrt 3)⁻¹, (Real.sqrt 3)⁻¹, (Real.sqrt 3)⁻¹⟩) ≠ 1 := by
  refine ⟨by norm_num [reb_rotation_length_squared, reb_rotation_identity],
    angle_axis_unit, init_orbital_unit,
    fun p q hp hq => by rw [reb_rotation_length_squared_mul, hp, hq, mul_one],
    fallback_r_eq_zero, ?_⟩
  have h33 : Real.sqrt 3 * Real.sqrt 3 = 3 := Real.mul_self_sqrt (by norm_num)
  have h30 : Real.sqrt 3 ≠ 0 := by
    rw [Real.sqrt_ne_zero']
    norm_num
  have hval : reb_rotation_length_squared (reb_rotation_init_from_to_fallback
      ⟨(Real.sqrt 3)⁻¹, (Real.sqrt 3)⁻¹, (Real.sqrt 3)⁻¹⟩) = 2 / 3 := by
    simp only [reb_rotation_init_from_to_fallback]
    rw [if_pos ⟨le_refl _, le_refl _⟩]
    simp only [reb_rotation_length_squared, reb_vec3d_cross]
    field_simp
    ring
  rw [hval]
  norm_num

/-- Witness for C8 instantiating the hypothesized conjuncts at a concrete
nonzero axis and at the identity quaternion. -/
theorem c8_constructors_unit_witness :
    (reb_vec3d_length_squared ⟨0, 0, 2⟩ ≠ 0 ∧
      reb_rotation_length_squared (reb_rotation_init_angle_axis 1 ⟨0, 0, 2⟩) = 1) ∧
    reb_rotation_length_squared
      (reb_rotation_mul reb_rotation_identity reb_rotation_identity) = 1 := by
  have h : reb_vec3d_length_squared (⟨0, 0, 2⟩ : reb_vec3d) ≠ 0 := by
    norm_num [reb_vec3d_length_squared, reb_vec3d_dot]
  exact ⟨⟨h, c8_constructors_unit.2.1 1 ⟨0, 0, 2⟩ h⟩,
    c8_constructors_unit.2.2.2.1 reb_rotation_identity reb_rotation_identity
      c8_constructors_unit.1 c8_constructors_unit.1⟩

/-- Indexed behaviour of the `reb_simulation_irotate` loop. -/
theorem sim_loop_get (q : reb_rotation) (N : ℕ) :
    ∀ (l : List reb_particle) (j i : ℕ),
      (reb_simulation_irotate_loop q N j l)[i]? =
        (l[i]?).map (fun p => if j + i < N then reb_particle_irotate p q else p)
  | [], _, _ => by simp [reb_simulation_irotate_loop]
  | p :: ps, j, 0 => by simp [reb_simulation_irotate_loop]
  | p :: ps, j, (i + 1) => by
    have h := sim_loop_get q N ps (j + 1) i
    have harith : j + 1 + i = j + (i + 1) := by omega
    simp only [reb_simulation_irotate_loop, List.getElem?_cons_succ]
    rw [h]
    simp only [harith]

/-- Claim C9: rotating a particle touches only x, y, z, vx, vy, vz (position
and velocity rotated independently through the same quaternion), and rotating
a simulation rotates exactly the particles at indices below N, leaving N, the
remaining collection state, and particles at indices at or above N unchanged. -/
theorem c9_frame_effect :
    (∀ (p : reb_particle) (q : reb_rotation),
      (reb_particle_irotate p q).rest = p.rest ∧
      (⟨(reb_particle_irotate p q).x, (reb_particle_irotate p q).y,
        (reb_particle_irotate p q).z⟩ : reb_vec3d) =
          reb_vec3d_irotate ⟨p.x, p.y, p.z⟩ q ∧
      (⟨(reb_particle_irotate p q).vx, (reb_particle_irotate p q).vy,
        (reb_particle_irotate p q).vz⟩ : reb_vec3d) =
          reb_vec3d_irotate ⟨p.vx, p.vy, p.vz⟩ q) ∧
    (∀ (sim : reb_simulation) (q : reb_rotation),
      (reb_simulation_irotate sim q).N = sim.N ∧
      (reb_simulation_irotate sim q).rest = sim.rest ∧
      (∀ i : ℕ, i < sim.N →
        (reb_simulation_irotate sim q).particles[i]? =
          (sim.particles[i]?).map (fun p => reb_particle_irotate p q)) ∧
      (∀ i : ℕ, sim.N ≤ i →
        (reb_simulation_irotate sim q).particles[i]? = sim.particles[i]?)) := by
  constructor
  · intro p q
    exact ⟨rfl, rfl, rfl⟩
  · intro sim q
    refine ⟨rfl, rfl, ?_, ?_⟩
    · intro i hi
      show (reb_simulation_irotate_loop q sim.N 0 sim.particles)[i]? = _
      rw [sim_loop_get]
      simp [hi]
    · intro i hi
      show (reb_simulation_irotate_loop q sim.N 0 sim.particles)[i]? = _
      rw [sim_loop_get]
      have h : ¬ (i < sim.N) := by omega
      simp [h]

/-- Claim C10: for every nonzero input, the fallback branch returns r = 0
and a nonzero imaginary part (the cross product with the selected world axis
cannot vanish). -/
theorem c10_fallback_nonzero (v : reb_vec3d) (hv : v ≠ ⟨0, 0, 0⟩) :
    (reb_rotation_init_from_to_fallback v).r = 0 ∧
    reb_rotation_imag (reb_rotation_init_from_to_fallback v) ≠ ⟨0, 0, 0⟩ := by
  simp only [reb_rotation_init_from_to_fallback]
  split_ifs with h1 h2
  · refine ⟨rfl, ?_⟩
    intro hz
    simp only [reb_rotation_imag, reb_vec3d_cross, reb_vec3d.mk.injEq] at hz
    obtain ⟨-, hz2, hz3⟩ := hz
    have hy : v.y = 0 := by linarith [hz3]
    have hzz : v.z = 0 := by linarith [hz2]
    have hx : v.x = 0 := by
      have := h1.1
      rw [hy] at this
      simpa using abs_nonpos_iff.mp (by simpa using this)
    exact hv (by ext <;> assumption)
  · refine ⟨rfl, ?_⟩
    intro hz
    simp only [reb_rotation_imag, reb_vec3d_cross, reb_vec3d.mk.injEq] at hz
    obtain ⟨hz1, -, hz3⟩ := hz
    have hx : v.x = 0 := by linarith [hz3]
    exact h1 ⟨by simp [hx], by simp [hx]⟩
  · refine ⟨rfl, ?_⟩
    intro hz
    simp only [reb_rotation_imag, reb_vec3d_cross, reb_vec3d.mk.injEq] at hz
    obtain ⟨hz1, hz2, -⟩ := hz
    have hy : v.y = 0 := by linarith [hz1]
    exact h2 (by simp [hy])

/-- Witness for C10 at the nonzero vector (1,0,0). -/
theorem c10_fallback_nonzero_witness :
    (⟨1, 0, 0⟩ : reb_vec3d) ≠ ⟨0, 0, 0⟩ ∧
    ((reb_rotation_init_from_to_fallback ⟨1, 0, 0⟩).r = 0 ∧
      reb_rotation_imag (reb_rotation_init_from_to_fallback ⟨1, 0, 0⟩) ≠ ⟨0, 0, 0⟩) := by
  have h : (⟨1, 0, 0⟩ : reb_vec3d) ≠ ⟨0, 0, 0⟩ := by
    simp [reb_vec3d.mk.injEq]
  exact ⟨h, c10_fallback_nonzero ⟨1, 0, 0⟩ h⟩

/-- `atan2` never exceeds pi. -/
theorem atan2_le_pi (y x : ℝ) : atan2 y x ≤ Real.pi :=
  Complex.arg_le_pi _

/-- `atan2` is strictly greater than -pi. -/
theorem neg_pi_lt_atan2 (y x : ℝ) : -Real.pi < atan2 y x :=
  Complex.neg_pi_lt_arg _

/-- `atan2(k sin t, k cos t)` recovers `t` up to a multiple of 2 pi, for k > 0. -/
theorem atan2_eq_angle (k θ : ℝ) (hk : 0 < k) :
    ∃ m : ℤ, atan2 (k * Real.sin θ) (k * Real.cos θ) = θ + 2 * Real.pi * m := by
  have harg := Complex.arg_mul_cos_add_sin_mul_I_sub hk θ
  have hrep : Complex.ofReal (k * Real.cos θ) + Complex.ofReal (k * Real.sin θ) * Complex.I =
      (k : ℂ) * (Complex.cos θ + Complex.sin θ * Complex.I) := by
    push_cast
    ring
  refine ⟨⌊(Real.pi - θ) / (2 * Real.pi)⌋, ?_⟩
  simp only [atan2]
  rw [hrep]
  linarith [harg]

/-- `atan2(0, x) = pi` for negative x. -/
theorem atan2_zero_neg (x : ℝ) (hx : x < 0) : atan2 0 x = Real.pi := by
  simp only [atan2]
  rw [show Complex.ofReal x + Complex.ofReal 0 * Complex.I = Complex.ofReal x by
    push_cast; ring]
  exact Complex.arg_ofReal_of_neg hx

/-- Claim C7 (amended): both angles returned by `toOrbital` lie in the
closed interval [0, 2 pi]; the upper endpoint 2 pi is attainable. -/
theorem c7_angles_range (q : reb_rotation) :
    0 ≤ (reb_rotation_to_orbital q).1 ∧ (reb_rotation_to_orbital q).1 ≤ 2 * Real.pi ∧
    0 ≤ (reb_rotation_to_orbital q).2.2 ∧
      (reb_rotation_to_orbital q).2.2 ≤ 2 * Real.pi := by
  have hb1 := atan2_le_pi q.iz q.r
  have hb2 := neg_pi_lt_atan2 q.iz q.r
  have hb3 := atan2_le_pi q.iy q.ix
  have hb4 := neg_pi_lt_atan2 q.iy q.ix
  have hπ := Real.pi_pos
  simp only [reb_rotation_to_orbital]
  split_ifs <;> refine ⟨?_, ?_, ?_, ?_⟩ <;> linarith

/-- Counterexample for claim C7: at the quaternion (ix,iy,iz,r) =
(-1/2, 0, 0, -1/2) the extracted Omega equals exactly 2 pi, which is not in
the half-open interval [0, 2 pi). -/
theorem c7_counterexample :
    (reb_rotation_to_orbital ⟨-(1/2), 0, 0, -(1/2)⟩).1 = 2 * Real.pi ∧
    ¬ ((reb_rotation_to_orbital ⟨-(1/2), 0, 0, -(1/2)⟩).1 < 2 * Real.pi) := by
  have hπ3 := Real.pi_gt_three
  have hπ := Real.pi_pos
  have hMI : MIN_INC = (1e-8 : ℝ) := rfl
  have hcosMI : 1 / 2 < Real.cos MIN_INC := by
    have h := Real.cos_lt_cos_of_nonneg_of_le_pi (by rw [hMI]; norm_num)
      (by linarith [Real.pi_gt_three] : Real.pi / 3 ≤ Real.pi)
      (by rw [hMI]; norm_num; linarith : MIN_INC < Real.pi / 3)
    rw [Real.cos_pi_div_three] at h
    exact h
  have hargval : (2 * ((-(1/2) : ℝ) * (-(1/2)) + 0 * 0) - 1) = -(1/2) := by norm_num
  have hcos : Real.cos (Real.arccos (-(1/2))) = -(1/2) :=
    Real.cos_arccos (by norm_num) (by norm_num)
  have hA0 : 0 ≤ Real.arccos (-(1/2)) := Real.arccos_nonneg _
  have hAπ : Real.arccos (-(1/2)) ≤ Real.pi := Real.arccos_le_pi _
  have hsafe1 : MIN_INC < |Real.arccos (-(1/2))| := by
    rw [abs_of_nonneg hA0]
    by_contra hle
    push_neg at hle
    have hmono := Real.cos_le_cos_of_nonneg_of_le_pi hA0
      (by rw [hMI]; linarith : MIN_INC ≤ Real.pi) hle
    rw [hcos] at hmono
    linarith
  have hsafe2 : MIN_INC < |Real.arccos (-(1/2)) - Real.pi| := by
    rw [abs_of_nonpos (by linarith : Real.arccos (-(1/2)) - Real.pi ≤ 0)]
    by_contra hle
    push_neg at hle
    have hge : Real.pi - MIN_INC ≤ Real.arccos (-(1/2)) := by linarith
    have hmono := Real.cos_le_cos_of_nonneg_of_le_pi
      (by rw [hMI]; linarith : (0:ℝ) ≤ Real.pi - MIN_INC) hAπ hge
    rw [hcos, Real.cos_pi_sub] at hmono
    linarith
  have hatan : atan2 0 (-(1/2) : ℝ) = Real.pi := atan2_zero_neg _ (by norm_num)
  simp only [reb_rotation_to_orbital, hargval, hatan]
  have hinner : (if MIN_INC < |Real.arccos (-(1/2))| ∧
      MIN_INC < |Real.arccos (-(1/2)) - Real.pi| then Real.pi + Real.pi else (0:ℝ)) =
      Real.pi + Real.pi := if_pos ⟨hsafe1, hsafe2⟩
  rw [hinner, if_neg (by linarith : ¬ Real.pi + Real.pi < 0)]
  constructor
  · ring
  · rw [show Real.pi + Real.pi = 2 * Real.pi from by ring]
    exact lt_irrefl _

/-- Closed form of the 3-1-3 orbital quaternion. -/
theorem init_orbital_eq (Om i om : ℝ) :
    reb_rotation_init_orbital Om i om =
      ⟨Real.sin (i / 2) * Real.cos ((Om - om) / 2),
       Real.sin (i / 2) * Real.sin ((Om - om) / 2),
       Real.cos (i / 2) * Real.sin ((Om + om) / 2),
       Real.cos (i / 2) * Real.cos ((Om + om) / 2)⟩ := by
  simp only [reb_rotation_init_orbital, reb_rotation_init_angle_axis, normalize_unit_x,
    normalize_unit_z, reb_vec3d_mul, reb_rotation_mul]
  ext <;>
    simp only [show (Om + om) / 2 = Om / 2 + om / 2 from by ring,
      show (Om - om) / 2 = Om / 2 - om / 2 from by ring,
      Real.cos_add, Real.sin_add, Real.cos_sub, Real.sin_sub] <;>
    ring

/-- Claim C4: for inclinations strictly between MIN_INC and pi - MIN_INC,
`toOrbital` recovers from `initOrbital(Om, i, om)` the inclination exactly
and the two angles up to integer multiples of 2 pi. -/
theorem c4_orbital_roundtrip (Om i om : ℝ)
    (h1 : MIN_INC < i) (h2 : i < Real.pi - MIN_INC) :
    (reb_rotation_to_orbital (reb_rotation_init_orbital Om i om)).2.1 = i ∧
    (∃ m : ℤ, (reb_rotation_to_orbital (reb_rotation_init_orbital Om i om)).1 =
      Om + 2 * Real.pi * m) ∧
    (∃ m : ℤ, (reb_rotation_to_orbital (reb_rotation_init_orbital Om i om)).2.2 =
      om + 2 * Real.pi * m) := by
  have hMI : (0 : ℝ) < MIN_INC := by norm_num [MIN_INC]
  have hπ := Real.pi_pos
  have hi0 : 0 < i := lt_trans hMI h1
  have hiπ : i < Real.pi := by linarith
  have hci : 0 < Real.cos (i / 2) :=
    Real.cos_pos_of_mem_Ioo ⟨by linarith, by linarith⟩
  have hsi : 0 < Real.sin (i / 2) :=
    Real.sin_pos_of_pos_of_lt_pi (by linarith) (by linarith)
  have hab : 2 * ((Real.cos (i / 2) * Real.cos ((Om + om) / 2)) *
        (Real.cos (i / 2) * Real.cos ((Om + om) / 2)) +
      (Real.cos (i / 2) * Real.sin ((Om + om) / 2)) *
        (Real.cos (i / 2) * Real.sin ((Om + om) / 2))) - 1 = Real.cos i := by
    have hp := Real.sin_sq_add_cos_sq ((Om + om) / 2)
    have hc := Real.cos_sq (i / 2)
    rw [show 2 * (i / 2) = i from by ring] at hc
    linear_combination 2 * (Real.cos (i / 2)) ^ 2 * hp + 2 * hc
  obtain ⟨m1, hm1⟩ := atan2_eq_angle (Real.cos (i / 2)) ((Om + om) / 2) hci
  obtain ⟨m2, hm2⟩ := atan2_eq_angle (Real.sin (i / 2)) ((Om - om) / 2) hsi
  rw [init_orbital_eq]
  simp only [reb_rotation_to_orbital]
  rw [hab, Real.arccos_cos hi0.le hiπ.le]
  have hcond : MIN_INC < |i| ∧ MIN_INC < |i - Real.pi| := by
    constructor
    · rw [abs_of_pos hi0]
      exact h1
    · rw [abs_of_neg (by linarith : i - Real.pi < 0)]
      linarith
  have hOmega0 : (if MIN_INC < |i| ∧ MIN_INC < |i - Real.pi| then
      atan2 (Real.cos (i / 2) * Real.sin ((Om + om) / 2))
          (Real.cos (i / 2) * Real.cos ((Om + om) / 2)) +
        atan2 (Real.sin (i / 2) * Real.sin ((Om - om) / 2))
          (Real.sin (i / 2) * Real.cos ((Om - om) / 2))
      else (0 : ℝ)) =
      ((Om + om) / 2 + 2 * Real.pi * m1) + ((Om - om) / 2 + 2 * Real.pi * m2) := by
    rw [if_pos hcond, hm1, hm2]
  have homega0 : (if MIN_INC < |i| ∧ MIN_INC < |i - Real.pi| then
      atan2 (Real.cos (i / 2) * Real.sin ((Om + om) / 2))
          (Real.cos (i / 2) * Real.cos ((Om + om) / 2)) -
        atan2 (Real.sin (i / 2) * Real.sin ((Om - om) / 2))
          (Real.sin (i / 2) * Real.cos ((Om - om) / 2))
      else if ¬ MIN_INC < |i| then
        2 * atan2 (Real.cos (i / 2) * Real.sin ((Om + om) / 2))
          (Real.cos (i / 2) * Real.cos ((Om + om) / 2))
      else
        2 * atan2 (Real.sin (i / 2) * Real.sin ((Om - om) / 2))
          (Real.sin (i / 2) * Real.cos ((Om - om) / 2))) =
      ((Om + om) / 2 + 2 * Real.pi * m1) - ((Om - om) / 2 + 2 * Real.pi * m2) := by
    rw [if_pos hcond, hm1, hm2]
  rw [hOmega0, homega0]
  refine ⟨rfl, ?_, ?_⟩
  · split_ifs
    · exact ⟨m1 + m2 + 1, by push_cast; ring⟩
    · exact ⟨m1 + m2, by push_cast; ring⟩
  · split_ifs
    · exact ⟨m1 - m2 + 1, by push_cast; ring⟩
    · exact ⟨m1 - m2, by push_cast; ring⟩

/-- Witness for C4 at Om = 0, i = 1, om = 0. -/
theorem c4_orbital_roundtrip_witness :
    MIN_INC < (1 : ℝ) ∧ (1 : ℝ) < Real.pi - MIN_INC ∧
    ((reb_rotation_to_orbital (reb_rotation_init_orbital 0 1 0)).2.1 = 1 ∧
      (∃ m : ℤ, (reb_rotation_to_orbital (reb_rotation_init_orbital 0 1 0)).1 =
        0 + 2 * Real.pi * m) ∧
      (∃ m : ℤ, (reb_rotation_to_orbital (reb_rotation_init_orbital 0 1 0)).2.2 =
        0 + 2 * Real.pi * m)) := by
  have hA : MIN_INC < (1 : ℝ) := by norm_num [MIN_INC]
  have hB : (1 : ℝ) < Real.pi - MIN_INC := by
    have h3 := Real.pi_gt_three
    rw [show MIN_INC = (1e-8 : ℝ) from rfl]
    linarith
  exact ⟨hA, hB, c4_orbital_roundtrip 0 1 0 hA hB⟩

/-- Witness for C9 at a concrete two-particle simulation with N = 1. -/
theorem c9_frame_effect_witness :
    ((reb_simulation_irotate ⟨1, [⟨1, 2, 3, 4, 5, 6, 7⟩, ⟨8, 9, 10, 11, 12, 13, 14⟩], 42⟩
        reb_rotation_identity).particles[0]? =
      (([⟨1, 2, 3, 4, 5, 6, 7⟩, ⟨8, 9, 10, 11, 12, 13, 14⟩] :
          List reb_particle)[0]?).map
        (fun p => reb_particle_irotate p reb_rotation_identity)) ∧
    ((reb_simulation_irotate ⟨1, [⟨1, 2, 3, 4, 5, 6, 7⟩, ⟨8, 9, 10, 11, 12, 13, 14⟩], 42⟩
        reb_rotation_identity).particles[1]? =
      ([⟨1, 2, 3, 4, 5, 6, 7⟩, ⟨8, 9, 10, 11, 12, 13, 14⟩] :
          List reb_particle)[1]?) :=
  ⟨(c9_frame_effect.2 ⟨1, [⟨1, 2, 3, 4, 5, 6, 7⟩, ⟨8, 9, 10, 11, 12, 13, 14⟩], 42⟩
      reb_rotation_identity).2.2.1 0 (by norm_num),
   (c9_frame_effect.2 ⟨1, [⟨1, 2, 3, 4, 5, 6, 7⟩, ⟨8, 9, 10, 11, 12, 13, 14⟩], 42⟩
      reb_rotation_identity).2.2.2 1 (by norm_num)⟩
